import Mathlib

/-!
# Verification of the chess game server (lobby, game session, message protocol)

Shallow embedding of the server-side core of the repository:
  * `src/server/game_session.py` — `GameSession.process_move` and its state;
  * `src/server/lobby.py` — `GameLobby` and its matchmaking operations;
  * `src/common/message.py` — the `Message` envelope.

Python dictionaries are modelled as insertion-ordered association lists
(`dictGet`/`dictSet`/`dictDel` below reproduce lookup, in-place update /
append-on-new-key, and deletion of the entry).  Wall-clock readings of
`time.time()` are passed in explicitly as rationals.  The external rules
engine (the `python-chess` `Board`, declared out of scope by the spec and
used only through its interface) is abstracted as a `Rules` structure over
an opaque `Board` type; moves themselves are concrete records mirroring
`chess.Move`, and the square / UCI parsing that the session code relies on
is modelled concretely.
-/

namespace ChessServer

/-- The two player colors (the `WHITE` / `BLACK` constants of
`common/constants.py`). -/
inductive Color
  | white
  | black
deriving DecidableEq

/-- Lobby game statuses (the `WAITING` / `PLAYING` / `FINISHED` constants of
`common/constants.py`). -/
inductive Status
  | waiting
  | playing
  | finished
deriving DecidableEq

/-- Modelled from the spec: `common/constants.py` is imported by the server but
is not among the sources.  The spec fixes only that each color starts with a
fixed positive time control (§3 "map color→remainingTimeSeconds", §4.4); the
concrete value is immaterial to every claim. -/
def DEFAULT_TIME_CONTROL : ℚ := 600

/-- Modelled from the spec: `common/constants.py` is imported by the server but
is not among the sources.  The spec fixes only that a fixed positive increment
is "credited to a player's clock immediately after completing a legal move"
(glossary "Increment"); the concrete value is immaterial to every claim. -/
def TIME_INCREMENT : ℚ := 5

section Dict

variable {β : Type}

/-- `d[k]` / `d.get(k)` on a Python dict modelled as an association list:
the value at the first (unique) occurrence of the key. -/
def dictGet : List (String × β) → String → Option β
  | [], _ => none
  | (k', v) :: t, k => if k' = k then some v else dictGet t k

/-- `d[k] = v` on a Python dict: replace the value in place if the key is
present, otherwise append the new binding (insertion order preserved). -/
def dictSet : List (String × β) → String → β → List (String × β)
  | [], k, v => [(k, v)]
  | (k', v') :: t, k, v => if k' = k then (k, v) :: t else (k', v') :: dictSet t k v

/-- `del d[k]` on a Python dict: drop the entry with the key (no-op when
absent; the callers below only delete present keys). -/
def dictDel : List (String × β) → String → List (String × β)
  | [], _ => []
  | (k', v') :: t, k => if k' = k then t else (k', v') :: dictDel t k

end Dict

/-- `chess.parse_square` on the two characters of a square name:
`SQUARE_NAMES.index(name)`, i.e. `8 * rank + file` for files `a`–`h` and
ranks `1`–`8`, and a `ValueError` (here `none`) otherwise. -/
def parseSquareChars : List Char → Option Nat
  | [f, r] =>
    if 'a' ≤ f ∧ f ≤ 'h' ∧ '1' ≤ r ∧ r ≤ '8' then
      some (8 * (r.toNat - '1'.toNat) + (f.toNat - 'a'.toNat))
    else none
  | _ => none

/-- `chess.parse_square` on a square-name string. -/
def parse_square (s : String) : Option Nat :=
  parseSquareChars s.toList

/-- `PIECE_SYMBOLS.index(c)` of `python-chess`
(`PIECE_SYMBOLS = [None, "p", "n", "b", "r", "q", "k"]`); `none` models the
`ValueError` on any other character. -/
def pieceSymbolIndex : Char → Option Nat
  | 'p' => some 1
  | 'n' => some 2
  | 'b' => some 3
  | 'r' => some 4
  | 'q' => some 5
  | 'k' => some 6
  | _ => none

/-- A `chess.Move`: from-square, to-square, optional promotion piece type,
optional drop piece type.  Equality is structural, as in `python-chess`. -/
structure ChessMove where
  fromSq : Nat
  toSq : Nat
  promotion : Option Nat := none
  dropPiece : Option Nat := none
deriving DecidableEq

/-- `chess.Move.from_uci`: `"0000"` is the null move `Move(0, 0)`; a
four-character token with `'@'` second is a drop; otherwise a token of length
4 or 5 parses its two squares (and, when present, the promotion symbol) and
must have distinct squares; anything else raises (here `none`). -/
def from_uci (uci : String) : Option ChessMove :=
  let cs := uci.toList
  if cs = ['0', '0', '0', '0'] then some ⟨0, 0, none, none⟩
  else if cs.length = 4 ∧ cs.getD 1 ' ' = '@' then
    match pieceSymbolIndex (cs.getD 0 ' ').toLower, parseSquareChars (cs.drop 2) with
    | some d, some sq => some ⟨sq, sq, none, some d⟩
    | _, _ => none
  else if 4 ≤ cs.length ∧ cs.length ≤ 5 then
    match parseSquareChars (cs.take 2), parseSquareChars ((cs.drop 2).take 2) with
    | some f, some t =>
      if cs.length = 5 then
        match pieceSymbolIndex (cs.getD 4 ' ') with
        | some p => if f = t then none else some ⟨f, t, some p, none⟩
        | none => none
      else if f = t then none else some ⟨f, t, none, none⟩
    | _, _ => none
  else none

/-- The `promotion_map` dict of `GameSession.process_move`: the four accepted
promotion letters mapped to `chess.QUEEN`/`ROOK`/`BISHOP`/`KNIGHT`. -/
def promotion_map : Char → Option Nat
  | 'q' => some 5
  | 'r' => some 4
  | 'b' => some 3
  | 'n' => some 2
  | _ => none

/-- Interface of the external rules engine (`python-chess`), which the spec
scopes out and the session code calls as an opaque capability: side to move,
legal-move generation, applying a move, terminal-position tests, and the move
stack (the session's move history lives in `Board.move_stack`). -/
structure Rules (Board : Type) where
  turn : Board → Color
  legal_moves : Board → List ChessMove
  push : Board → ChessMove → Board
  is_game_over : Board → Bool
  is_checkmate : Board → Bool
  is_stalemate : Board → Bool
  is_insufficient_material : Board → Bool
  move_stack : Board → List ChessMove

/-- The two per-color clocks (`self.time_remaining`, a dict keyed by the two
colors). -/
structure TimeRemaining where
  white : ℚ
  black : ℚ
deriving DecidableEq

/-- Dict lookup `self.time_remaining[color]`. -/
def TimeRemaining.get (tr : TimeRemaining) : Color → ℚ
  | .white => tr.white
  | .black => tr.black

/-- Dict update `self.time_remaining[color] = v`. -/
def TimeRemaining.set (tr : TimeRemaining) : Color → ℚ → TimeRemaining
  | .white, v => { tr with white := v }
  | .black, v => { tr with black := v }

/-- The mutable state of a `GameSession` (`__init__`), minus the socket table
and logger, which carry no session-visible state. -/
structure Session (Board : Type) where
  chess_game : Board
  player_roles : List (String × Color)
  spectators : List String
  time_remaining : TimeRemaining
  last_move_time : Option ℚ
  chat_history : List (String × String)
  start_time : Option ℚ
  end_time : Option ℚ
  running : Bool
deriving DecidableEq

/-- `GameSession.__init__(game_id, player1_id, player2_id)`: fresh board,
player 1 (if given) seated as White and player 2 as Black, full clocks, no
timestamps, running. -/
def Session.init {Board : Type} (board0 : Board)
    (player1_id player2_id : Option String) : Session Board where
  chess_game := board0
  player_roles :=
    (match player1_id with | some p => [(p, Color.white)] | none => []) ++
    (match player2_id with | some p => [(p, Color.black)] | none => [])
  spectators := []
  time_remaining := ⟨DEFAULT_TIME_CONTROL, DEFAULT_TIME_CONTROL⟩
  last_move_time := none
  chat_history := []
  start_time := none
  end_time := none
  running := true

/-- The distinct failure reports of `process_move`, one per `send_error`
call site, plus `serverError` for the outer `except Exception` handler that
converts an exception raised in a delegated call into a per-client error. -/
inductive MoveError
  | notAPlayer
  | wrongTurn
  | invalidPromotion
  | invalidFormat
  | notLegal
  | serverError
deriving DecidableEq

/-- Return value plus post-state of one `process_move` call. -/
structure MoveResult (Board : Type) where
  ok : Bool
  error : Option MoveError
  state : Session Board

/-- `GameSession.process_move(player_id, move_uci)` with the wall-clock
reading `time.time()` passed in as `now`.  Mirrors the source line by line:
membership in `player_roles`; the turn check; the five-character promotion
branch (whose `chess.parse_square` calls raise on bad coordinates, landing in
the outer exception handler) versus `chess.Move.from_uci` with its
`ValueError` caught as "Invalid move format"; membership in
`legal_moves`; then the time accounting (`time_spent` is zero when
`self.last_move_time` is falsy — `None` or `0`), the increment, the
timestamp update, the `push`, and `end_time` when the engine reports the
game over. -/
def process_move {Board : Type} (R : Rules Board) (s : Session Board)
    (player_id : String) (move_uci : String) (now : ℚ) : MoveResult Board :=
  match dictGet s.player_roles player_id with
  | none => ⟨false, some .notAPlayer, s⟩
  | some player_role =>
    if player_role ≠ R.turn s.chess_game then ⟨false, some .wrongTurn, s⟩
    else
      let parsed : MoveError ⊕ ChessMove :=
        if move_uci.length = 5 then
          match parse_square (move_uci.take 2) with
          | none => .inl .serverError
          | some from_square =>
            match parse_square ((move_uci.drop 2).take 2) with
            | none => .inl .serverError
            | some to_square =>
              match promotion_map (move_uci.toList.getD 4 ' ') with
              | none => .inl .invalidPromotion
              | some p => .inr ⟨from_square, to_square, some p, none⟩
        else
          match from_uci move_uci with
          | none => .inl .invalidFormat
          | some m => .inr m
      match parsed with
      | .inl e => ⟨false, some e, s⟩
      | .inr move =>
        if move ∈ R.legal_moves s.chess_game then
          let time_spent : ℚ :=
            match s.last_move_time with
            | some t => if t = 0 then 0 else now - t
            | none => 0
          let tr1 := s.time_remaining.set player_role
            (max 0 (s.time_remaining.get player_role - time_spent))
          let tr2 := tr1.set player_role (tr1.get player_role + TIME_INCREMENT)
          let board' := R.push s.chess_game move
          ⟨true, none,
            { s with
              time_remaining := tr2
              last_move_time := some now
              chess_game := board'
              end_time := if R.is_game_over board' then some now else s.end_time }⟩
        else ⟨false, some .notLegal, s⟩

/-- One entry of `GameLobby.games`: the `(game_state, players, spectators)`
tuple (the third component is the set stored inside the tuple, touched only
by the legacy spectator paths; modelled as a duplicate-free list). -/
structure GameRec where
  state : Status
  players : List String
  spectators : List String
deriving DecidableEq

/-- The mutable state of `GameLobby.__init__`. -/
structure GameLobby where
  games : List (String × GameRec)
  player_game_map : List (String × String)
  spectator_game_map : List (String × String)
  waiting_players : List String
  spectators : List (String × List String)
  client_game_map : List (String × String)
deriving DecidableEq

/-- A fresh, empty lobby. -/
def GameLobby.init : GameLobby := ⟨[], [], [], [], [], []⟩

/-- `GameLobby.create_game(player_id)`.  `generate_unique_id()` (a `uuid4`
string in `server/utils.py`) is modelled by passing the generated id in as
`game_id`; the sequence semantics below draws ids from a counter, which
preserves the only property the source relies on, freshness. -/
def create_game (L : GameLobby) (game_id player_id : String) : GameLobby :=
  { L with
    games := dictSet L.games game_id ⟨.waiting, [player_id], []⟩
    player_game_map := dictSet L.player_game_map player_id game_id }

/-- `GameLobby.join_game(game_id, player_id)`: `False` when the game is
unknown, not `WAITING`, or already holds two players; otherwise the player is
appended (the tuple's player list is mutated in place) and the game is
re-stored as `PLAYING` exactly when the list now has two entries. -/
def join_game (L : GameLobby) (game_id player_id : String) : Bool × GameLobby :=
  match dictGet L.games game_id with
  | none => (false, L)
  | some rec =>
    if rec.state ≠ .waiting then (false, L)
    else if rec.players.length ≥ 2 then (false, L)
    else
      let players' := rec.players ++ [player_id]
      let state' := if players'.length = 2 then Status.playing else rec.state
      (true,
        { L with
          games := dictSet L.games game_id ⟨state', players', rec.spectators⟩
          player_game_map := dictSet L.player_game_map player_id game_id })

/-- The scan inside `GameLobby.join_random_game`: walk the games in insertion
order, and at the first `WAITING` game with fewer than two players call
`join_game`, returning its id on success. -/
def join_random_loop (L : GameLobby) (player_id : String) :
    List (String × GameRec) → Option (String × GameLobby)
  | [] => none
  | (gid, rec) :: rest =>
    if rec.state = .waiting ∧ rec.players.length < 2 then
      let r := join_game L gid player_id
      if r.1 then some (gid, r.2) else join_random_loop r.2 player_id rest
    else join_random_loop L player_id rest

/-- `GameLobby.join_random_game(player_id)`: join the first open waiting game,
else create a fresh one (`fresh_id` stands for the `uuid4` the source would
generate). -/
def join_random_game (L : GameLobby) (fresh_id player_id : String) :
    String × GameLobby :=
  match join_random_loop L player_id L.games with
  | some (gid, L') => (gid, L')
  | none => (fresh_id, create_game L fresh_id player_id)

/-- `GameLobby.leave_game(client_id)`.  `none` models an uncaught exception
(`KeyError` on a dangling `games` lookup, `ValueError` from
`players.remove`, `KeyError` from the legacy `spectators.remove`); every such
raise happens before any mutation, so the lobby is unchanged in that case.
Order of the branches follows the source: player, then `client_game_map`
spectator, then legacy spectator, then no-op. -/
def leave_game (L : GameLobby) (client_id : String) : Option GameLobby :=
  match dictGet L.player_game_map client_id with
  | some game_id =>
    match dictGet L.games game_id with
    | none => none
    | some rec =>
      if client_id ∈ rec.players then
        let players' := rec.players.erase client_id
        let L1 := { L with player_game_map := dictDel L.player_game_map client_id }
        if players' = [] then
          some { L1 with games := dictDel L1.games game_id }
        else if players'.length = 1 ∧ rec.state = .playing then
          some { L1 with games := dictSet L1.games game_id ⟨.finished, players', rec.spectators⟩ }
        else
          some { L1 with games := dictSet L1.games game_id ⟨rec.state, players', rec.spectators⟩ }
      else none
  | none =>
  match dictGet L.client_game_map client_id with
  | some game_id =>
    let specs' :=
      match dictGet L.spectators game_id with
      | some ss =>
        if client_id ∈ ss then dictSet L.spectators game_id (ss.erase client_id)
        else L.spectators
      | none => L.spectators
    some { L with
      spectators := specs'
      client_game_map := dictDel L.client_game_map client_id }
  | none =>
  match dictGet L.spectator_game_map client_id with
  | some game_id =>
    match dictGet L.games game_id with
    | none => none
    | some rec =>
      if client_id ∈ rec.spectators then
        some { L with
          games := dictSet L.games game_id ⟨rec.state, rec.players, rec.spectators.erase client_id⟩
          spectator_game_map := dictDel L.spectator_game_map client_id }
      else none
  | none => some L

/-- `GameLobby.spectate_game(game_id, spectator_id)`: fails only when the game
is unknown; otherwise adds the client to the lobby-level spectator set for the
game (set insertion — idempotent) and records it in `client_game_map`. -/
def spectate_game (L : GameLobby) (game_id spectator_id : String) :
    Bool × GameLobby :=
  if (dictGet L.games game_id).isSome then
    let cur := (dictGet L.spectators game_id).getD []
    let cur' := if spectator_id ∈ cur then cur else cur ++ [spectator_id]
    (true,
      { L with
        spectators := dictSet L.spectators game_id cur'
        client_game_map := dictSet L.client_game_map spectator_id game_id })
  else (false, L)

/-- A JSON value, the domain on which the standard-library codec used by
`common/message.py` (`json.dumps` / `json.loads`, external to the
repository) is a bijection between documents and their canonical text;
serialization is therefore modelled at this level and the codec as the
identity on `JValue`.  Numbers are integers (floats are outside the
envelope's needs). -/
inductive JValue
  | null
  | bool (b : Bool)
  | num (n : Int)
  | str (s : String)
  | arr (elems : List JValue)
  | obj (fields : List (String × JValue))

/-- Python truthiness of a JSON value, as tested by `if self.client_id:`. -/
def JValue.truthy : JValue → Bool
  | .null => false
  | .bool b => b
  | .num n => n != 0
  | .str s => s ≠ ""
  | .arr l => !l.isEmpty
  | .obj l => !l.isEmpty

/-- A `Message` (`common/message.py`): type tag, data payload, optional
origin client id.  The constructor places no constraint on the field values,
so they are arbitrary JSON values here. -/
structure Message where
  msg_type : JValue
  data : JValue
  client_id : Option JValue := none

/-- `Message.to_json`: the JSON document `json.dumps` would serialize — the
object with `msg_type` and `data`, plus `client_id` exactly when that field
is truthy. -/
def Message.to_json (m : Message) : JValue :=
  .obj ([("msg_type", m.msg_type), ("data", m.data)] ++
    (match m.client_id with
     | some c => if c.truthy then [("client_id", c)] else []
     | none => []))

/-- `Message.from_json` after `json.loads`: requires the `msg_type` and
`data` keys (a `KeyError` becomes `ValueError`, here `none`) and reads
`client_id` with `.get`.  A non-object document also yields `none`. -/
def Message.from_json (j : JValue) : Option Message :=
  match j with
  | .obj fields =>
    match dictGet fields "msg_type", dictGet fields "data" with
    | some t, some d => some ⟨t, d, dictGet fields "client_id"⟩
    | _, _ => none
  | _ => none

/-!
## A concrete toy instantiation of the engine interface

Used only to evaluate the parametric theorems at concrete inputs.  The start
position has the single legal move `e2e4` for White; the position after it
has none and is not a terminal position for `is_game_over` (as after a draw
agreement it would be); `overBoard` reports the game over.
-/

/-- Three-position toy board type. -/
inductive TBoard
  | start
  | afterMove
  | overBoard
deriving DecidableEq

/-- The move `e2e4` as a `chess.Move` record. -/
def toyMove : ChessMove := ⟨12, 28, none, none⟩

/-- Toy rules engine: one legal White move from `start`. -/
def toyRules : Rules TBoard where
  turn := fun b => match b with | .start => .white | .afterMove => .black | .overBoard => .white
  legal_moves := fun b => match b with | .start => [toyMove] | _ => []
  push := fun _ _ => .afterMove
  is_game_over := fun b => match b with | .overBoard => true | _ => false
  is_checkmate := fun _ => false
  is_stalemate := fun _ => false
  is_insufficient_material := fun b => match b with | .overBoard => true | _ => false
  move_stack := fun b => match b with | .start => [] | _ => [toyMove]

/-- A live two-player session in the toy engine, clocks at the default, last
accounting point at 5 seconds. -/
def liveSession : Session TBoard where
  chess_game := .start
  player_roles := [("p1", .white), ("p2", .black)]
  spectators := []
  time_remaining := ⟨DEFAULT_TIME_CONTROL, DEFAULT_TIME_CONTROL⟩
  last_move_time := some 5
  chat_history := []
  start_time := some 1
  end_time := none
  running := true

/-- The same session after it has ended (say by timeout at 10 seconds):
`end_time` is set, yet White still has a legal move in the toy engine, as
after an insufficient-material draw or a flag fall in the real one. -/
def endedSession : Session TBoard :=
  { liveSession with end_time := some 10 }

/-!
## Helper lemmas
-/

theorem TimeRemaining.get_set_same (tr : TimeRemaining) (c : Color) (v : ℚ) :
    (tr.set c v).get c = v := by
  cases c <;> rfl

theorem TimeRemaining.set_set_same (tr : TimeRemaining) (c : Color) (a b : ℚ) :
    (tr.set c a).set c b = tr.set c b := by
  cases c <;> rfl

/-- Case analysis on `process_move`: either the call fails and returns the
state untouched, or the caller is the player whose color is on move, the
token denotes a currently legal move, and the result is the success record —
clock of the mover set to `max 0 (previous − elapsed) + increment` (elapsed
zero when the accounting point is unset), timestamp set to `now`, the move
pushed, and `end_time` set when the engine reports the game over. -/
theorem process_move_spec {Board : Type} (R : Rules Board) (s : Session Board)
    (pid uci : String) (now : ℚ) :
    ((process_move R s pid uci now).ok = false ∧
      (process_move R s pid uci now).state = s) ∨
    (∃ role move,
      dictGet s.player_roles pid = some role ∧
      role = R.turn s.chess_game ∧
      move ∈ R.legal_moves s.chess_game ∧
      process_move R s pid uci now =
        ⟨true, none,
          { s with
            time_remaining := s.time_remaining.set role
              (max 0 (s.time_remaining.get role -
                (match s.last_move_time with
                 | some t => if t = 0 then 0 else now - t
                 | none => 0)) + TIME_INCREMENT)
            last_move_time := some now
            chess_game := R.push s.chess_game move
            end_time :=
              if R.is_game_over (R.push s.chess_game move) then some now
              else s.end_time }⟩) := by
  unfold process_move
  cases hrole : dictGet s.player_roles pid with
  | none => exact Or.inl ⟨rfl, rfl⟩
  | some role =>
    dsimp only
    by_cases hturn : role ≠ R.turn s.chess_game
    · rw [if_pos hturn]
      exact Or.inl ⟨rfl, rfl⟩
    · rw [if_neg hturn]
      push_neg at hturn
      split
      · exact Or.inl ⟨rfl, rfl⟩
      · rename_i move _
        by_cases hleg : move ∈ R.legal_moves s.chess_game
        · rw [if_pos hleg]
          refine Or.inr ⟨role, move, rfl, hturn, hleg, ?_⟩
          rw [TimeRemaining.get_set_same, TimeRemaining.set_set_same]
        · rw [if_neg hleg]
          exact Or.inl ⟨rfl, rfl⟩

/-!
## Claims about `GameSession.process_move`
-/

/-- C1: on every successful `process_move` call (with the pre-move accounting
point `t` set — `time.time()` readings are strictly positive, so the
truthiness guard `if self.last_move_time` coincides with "set"), the mover's
clock afterwards is exactly `max 0 (previous − (now − t)) + TIME_INCREMENT`
and the accounting point becomes `now`.  The clock equation mentions only
pre-move state, which is the observable content of the accounting happening
before the move is applied to the board. -/
theorem C1_time_accounting {Board : Type} (R : Rules Board) (s : Session Board)
    (pid uci : String) (now t : ℚ) (role : Color)
    (hrole : dictGet s.player_roles pid = some role)
    (hlast : s.last_move_time = some t) (ht : 0 < t)
    (hok : (process_move R s pid uci now).ok = true) :
    (process_move R s pid uci now).state.time_remaining.get role =
      max 0 (s.time_remaining.get role - (now - t)) + TIME_INCREMENT ∧
    (process_move R s pid uci now).state.last_move_time = some now := by
  rcases process_move_spec R s pid uci now with ⟨hf, _⟩ | ⟨role', move, hrole', _, _, heq⟩
  · rw [hok] at hf
    cases hf
  · rw [hrole] at hrole'
    injection hrole' with h
    subst h
    rw [heq]
    dsimp only
    rw [hlast]
    dsimp only
    rw [if_neg (ne_of_gt ht)]
    exact ⟨TimeRemaining.get_set_same _ _ _, rfl⟩

/-- Witness for C1: in the toy engine, player 1 plays `e2e4` at time 7 with
the accounting point at 5. -/
theorem C1_witness :
    (process_move toyRules liveSession "p1" "e2e4" 7).state.time_remaining.get Color.white =
      max 0 (liveSession.time_remaining.get Color.white - (7 - 5)) + TIME_INCREMENT ∧
    (process_move toyRules liveSession "p1" "e2e4" 7).state.last_move_time = some 7 :=
  C1_time_accounting toyRules liveSession "p1" "e2e4" 7 5 Color.white (by decide) rfl
    (by norm_num) (by decide)

/-- C2: a recognized player whose color is not the side to move always fails
with `WrongTurn` and the entire session state is untouched; conversely a
successful call implies the caller's color is the side to move, so the
non-turn color never moves in any call sequence. -/
theorem C2_turn_enforcement {Board : Type} (R : Rules Board) (s : Session Board)
    (pid uci : String) (now : ℚ) (role : Color)
    (hrole : dictGet s.player_roles pid = some role) :
    (role ≠ R.turn s.chess_game →
      process_move R s pid uci now = ⟨false, some MoveError.wrongTurn, s⟩) ∧
    ((process_move R s pid uci now).ok = true → role = R.turn s.chess_game) := by
  constructor
  · intro hne
    unfold process_move
    rw [hrole]
    dsimp only
    rw [if_pos hne]
  · intro hok
    rcases process_move_spec R s pid uci now with ⟨hf, _⟩ | ⟨role', _, hrole', hturn, _, _⟩
    · rw [hok] at hf
      cases hf
    · rw [hrole] at hrole'
      injection hrole' with h
      rw [h]
      exact hturn

/-- Witness for C2: in the toy engine it is White's turn, and `p2` (Black)
attempting `e2e4` is refused with the state intact. -/
theorem C2_witness :
    process_move toyRules liveSession "p2" "e2e4" 7 =
      ⟨false, some MoveError.wrongTurn, liveSession⟩ :=
  (C2_turn_enforcement toyRules liveSession "p2" "e2e4" 7 Color.black (by decide)).1 (by decide)

/-- C3: `process_move` is atomic on failure — whenever the call returns
`False` (not a player, wrong turn, malformed token, illegal move, or an
exception raised by a delegated parse call and converted by the outer
handler), the whole session state, hence board, move history
(`Board.move_stack`), both clocks and the accounting point, is exactly the
input state: every failure return precedes the first mutation. -/
theorem C3_atomic_failure {Board : Type} (R : Rules Board) (s : Session Board)
    (pid uci : String) (now : ℚ)
    (hfail : (process_move R s pid uci now).ok = false) :
    (process_move R s pid uci now).state = s := by
  rcases process_move_spec R s pid uci now with ⟨_, h⟩ | ⟨_, _, _, _, _, heq⟩
  · exact h
  · rw [heq] at hfail
    cases hfail

/-- Witness for C3: `a2a3` parses but is illegal in the toy engine; the call
fails and the state is untouched. -/
theorem C3_witness :
    (process_move toyRules liveSession "p1" "a2a3" 7).state = liveSession :=
  C3_atomic_failure toyRules liveSession "p1" "a2a3" 7 (by decide)

/-- C5 counterexample: `process_move` never consults `end_time`.  In
`endedSession` the game has ended (`end_time = some 10`, as after a flag
fall or an insufficient-material draw, both of which can leave the side to
move with legal moves), yet a later `process_move` call succeeds and
mutates the board. -/
theorem C5_counterexample :
    endedSession.end_time = some 10 ∧
    (process_move toyRules endedSession "p1" "e2e4" 11).ok = true ∧
    (process_move toyRules endedSession "p1" "e2e4" 11).state.chess_game ≠
      endedSession.chess_game :=
  ⟨rfl, by decide, by decide⟩

/-- C5 (amended): the Ended state is absorbing only through the rules engine:
when the terminal position has no legal moves (checkmate, stalemate), every
subsequent `process_move` call is rejected with the state untouched;
`process_move` itself never checks `end_time`, so a session ended with legal
moves remaining (timeout, insufficient-material draw) still accepts a legal
move from the player to move. -/
theorem C5_ended_no_legal_moves {Board : Type} (R : Rules Board) (s : Session Board)
    (hleg : R.legal_moves s.chess_game = []) (pid uci : String) (now : ℚ) :
    (process_move R s pid uci now).ok = false ∧
    (process_move R s pid uci now).state = s := by
  rcases process_move_spec R s pid uci now with ⟨h1, h2⟩ | ⟨_, move, _, _, hmem, _⟩
  · exact ⟨h1, h2⟩
  · rw [hleg] at hmem
    cases hmem

/-- Witness for the amended C5: the toy position after `e2e4` has no legal
moves, and any further call bounces off. -/
theorem C5_witness :
    (process_move toyRules { liveSession with chess_game := TBoard.afterMove } "p2" "e7e5" 9).ok
      = false ∧
    (process_move toyRules { liveSession with chess_game := TBoard.afterMove } "p2" "e7e5" 9).state
      = { liveSession with chess_game := TBoard.afterMove } :=
  C5_ended_no_legal_moves toyRules { liveSession with chess_game := TBoard.afterMove }
    (by decide) "p2" "e7e5" 9

/-- C10: a legal move sent before the session has started (second player not
yet joined, so `start_game` has not run and `last_move_time` is still
`None`) is accepted: the truthiness guard makes the elapsed deduction zero,
the increment is still credited, and the mover's clock strictly exceeds the
initial time control. -/
theorem C10_move_before_start {Board : Type} (R : Rules Board) (board0 : Board)
    (p1 uci : String) (now : ℚ) (move : ChessMove)
    (hturn : R.turn board0 = Color.white)
    (hlen : uci.length ≠ 5)
    (hparse : from_uci uci = some move)
    (hleg : move ∈ R.legal_moves board0) :
    (process_move R (Session.init board0 (some p1) none) p1 uci now).ok = true ∧
    (process_move R (Session.init board0 (some p1) none) p1 uci
        now).state.time_remaining.get Color.white =
      DEFAULT_TIME_CONTROL + TIME_INCREMENT ∧
    DEFAULT_TIME_CONTROL < DEFAULT_TIME_CONTROL + TIME_INCREMENT := by
  have hgd : dictGet (Session.init board0 (some p1) none).player_roles p1 =
      some Color.white := by
    simp [Session.init, dictGet]
  unfold process_move
  rw [hgd]
  dsimp only [Session.init]
  rw [if_neg (by rw [hturn]; simp), if_neg hlen, hparse]
  dsimp only
  rw [if_pos hleg]
  refine ⟨rfl, ?_, ?_⟩
  · simp only [TimeRemaining.get_set_same, TimeRemaining.set_set_same]
    norm_num [TimeRemaining.get, DEFAULT_TIME_CONTROL]
  · norm_num [DEFAULT_TIME_CONTROL, TIME_INCREMENT]

/-- Witness for C10: `e2e4` played at time 3 in a session created by `p1`
alone. -/
theorem C10_witness :
    (process_move toyRules (Session.init TBoard.start (some "p1") none) "p1" "e2e4" 3).ok
      = true ∧
    (process_move toyRules (Session.init TBoard.start (some "p1") none) "p1" "e2e4"
        3).state.time_remaining.get Color.white =
      DEFAULT_TIME_CONTROL + TIME_INCREMENT ∧
    DEFAULT_TIME_CONTROL < DEFAULT_TIME_CONTROL + TIME_INCREMENT :=
  C10_move_before_start toyRules TBoard.start "p1" "e2e4" 3 toyMove (by decide) (by decide)
    (by decide) (by decide)

/-- C4 counterexample: the five-character token `"z9e8q"` has coordinates
that do not parse.  `chess.parse_square` raises, the outer exception handler
reports the generic "Server error processing move" message, and neither of
the two malformed-move reports ("Invalid move format", "Invalid promotion
piece") is produced — contradicting the claim that unparseable coordinates
fail as `MalformedMove`. -/
theorem C4_counterexample :
    (process_move toyRules liveSession "p1" "z9e8q" 7).ok = false ∧
    (process_move toyRules liveSession "p1" "z9e8q" 7).error = some MoveError.serverError ∧
    (process_move toyRules liveSession "p1" "z9e8q" 7).error ≠ some MoveError.invalidFormat ∧
    (process_move toyRules liveSession "p1" "z9e8q" 7).error ≠ some MoveError.invalidPromotion :=
  ⟨by decide, by decide, by decide, by decide⟩

/-- C4 (amended): for a recognized player on turn and a five-character token:
if either coordinate fails to parse the call fails through the generic
exception path (`serverError`), not as a malformed-move report; if the
coordinates parse but the promotion letter is outside `{q, r, b, n}` it
fails as `MalformedMove` ("Invalid promotion piece"); and if the token
parses but the move is not among the current legal moves it fails as
`IllegalMove` ("That move is not legal"), not as `MalformedMove`.  State is
untouched in every case. -/
theorem C4_move_classification {Board : Type} (R : Rules Board) (s : Session Board)
    (pid uci : String) (now : ℚ) (role : Color)
    (hrole : dictGet s.player_roles pid = some role)
    (hturn : role = R.turn s.chess_game)
    (h5 : uci.length = 5) :
    (parse_square (uci.take 2) = none ∨ parse_square ((uci.drop 2).take 2) = none →
      (process_move R s pid uci now).error = some MoveError.serverError ∧
      (process_move R s pid uci now).state = s) ∧
    (∀ f t, parse_square (uci.take 2) = some f →
      parse_square ((uci.drop 2).take 2) = some t →
      promotion_map (uci.toList.getD 4 ' ') = none →
      (process_move R s pid uci now).error = some MoveError.invalidPromotion ∧
      (process_move R s pid uci now).state = s) ∧
    (∀ f t p, parse_square (uci.take 2) = some f →
      parse_square ((uci.drop 2).take 2) = some t →
      promotion_map (uci.toList.getD 4 ' ') = some p →
      (⟨f, t, some p, none⟩ : ChessMove) ∉ R.legal_moves s.chess_game →
      (process_move R s pid uci now).error = some MoveError.notLegal ∧
      (process_move R s pid uci now).state = s) := by
  unfold process_move
  rw [hrole]
  dsimp only
  rw [if_neg (by rw [hturn]; simp), if_pos h5]
  refine ⟨?_, ?_, ?_⟩
  · rintro (hf | ht)
    · rw [hf]
      exact ⟨rfl, rfl⟩
    · cases hf : parse_square (uci.take 2) with
      | none => exact ⟨rfl, rfl⟩
      | some f =>
        rw [ht]
        exact ⟨rfl, rfl⟩
  · intro f t hf ht hp
    rw [hf, ht, hp]
    exact ⟨rfl, rfl⟩
  · intro f t p hf ht hp hleg
    rw [hf, ht, hp]
    dsimp only
    rw [if_neg hleg]
    exact ⟨rfl, rfl⟩

/-- Witness for the amended C4: `"e7e8x"` — both squares parse, `'x'` is not
an accepted promotion letter, so the report is "Invalid promotion piece". -/
theorem C4_witness :
    (process_move toyRules liveSession "p1" "e7e8x" 7).error =
      some MoveError.invalidPromotion ∧
    (process_move toyRules liveSession "p1" "e7e8x" 7).state = liveSession :=
  (C4_move_classification toyRules liveSession "p1" "e7e8x" 7 Color.white (by decide)
      (by decide) (by decide)).2.1 52 60 (by decide) (by decide) (by decide)

/-!
## Claims about the lobby
-/

theorem dictGet_dictSet_same {β : Type} (l : List (String × β)) (k : String) (v : β) :
    dictGet (dictSet l k v) k = some v := by
  induction l with
  | nil => simp [dictGet, dictSet]
  | cons hd t ih =>
    by_cases hk : hd.1 = k
    · simp [dictSet, dictGet, hk]
    · simpa [dictSet, dictGet, hk] using ih

theorem dictGet_dictSet_other {β : Type} (l : List (String × β)) (k k' : String) (v : β)
    (h : k' ≠ k) : dictGet (dictSet l k v) k' = dictGet l k' := by
  induction l with
  | nil => simp [dictSet, dictGet, Ne.symm h]
  | cons a t ih =>
    obtain ⟨k1, v1⟩ := a
    by_cases hk : k1 = k
    · subst hk
      simp [dictSet, dictGet, Ne.symm h]
    · have hset : dictSet ((k1, v1) :: t) k v = (k1, v1) :: dictSet t k v := by
        simp [dictSet, hk]
      rw [hset]
      by_cases hk1 : k1 = k'
      · simp [dictGet, hk1]
      · simp [dictGet, hk1, ih]

/-- C6: `join_game` returns `False` — leaving the lobby untouched — exactly
when the game is unknown, not `WAITING`, or already has two players (game
records never hold more than two players, the standing hypothesis); on
success it appends the player and re-stores the game as `PLAYING` exactly
when the list now has two entries. -/
theorem C6_join_game (L : GameLobby) (gid pid : String)
    (hlen : ∀ rec, dictGet L.games gid = some rec → rec.players.length ≤ 2) :
    ((join_game L gid pid).1 = false ↔
      dictGet L.games gid = none ∨
      ∃ rec, dictGet L.games gid = some rec ∧
        (rec.state ≠ Status.waiting ∨ rec.players.length = 2)) ∧
    ((join_game L gid pid).1 = false → (join_game L gid pid).2 = L) ∧
    (∀ rec, dictGet L.games gid = some rec → (join_game L gid pid).1 = true →
      dictGet (join_game L gid pid).2.games gid =
        some ⟨if rec.players.length + 1 = 2 then Status.playing else rec.state,
              rec.players ++ [pid], rec.spectators⟩) := by
  unfold join_game
  cases hg : dictGet L.games gid with
  | none =>
    exact ⟨iff_of_true rfl (Or.inl rfl), fun _ => rfl, fun rec hrec _ => by cases hrec⟩
  | some rec =>
    dsimp only
    have hlen2 := hlen rec hg
    by_cases hw : rec.state ≠ Status.waiting
    · rw [if_pos hw]
      exact ⟨iff_of_true rfl (Or.inr ⟨rec, rfl, Or.inl hw⟩), fun _ => rfl,
        fun rec' hrec' hok => by cases hok⟩
    · rw [if_neg hw]
      push_neg at hw
      by_cases h2 : rec.players.length ≥ 2
      · rw [if_pos h2]
        exact ⟨iff_of_true rfl (Or.inr ⟨rec, rfl, Or.inr (le_antisymm hlen2 h2)⟩),
          fun _ => rfl, fun rec' hrec' hok => by cases hok⟩
      · rw [if_neg h2]
        refine ⟨?_, ?_, ?_⟩
        · constructor
          · intro hfalse
            simp at hfalse
          · rintro (hnone | ⟨rec', hrec', hbad⟩)
            · cases hnone
            · injection hrec' with h
              subst h
              rcases hbad with hbad | hbad
              · exact absurd hw hbad
              · omega
        · intro hfalse
          simp at hfalse
        · intro rec' hrec' _
          injection hrec' with h
          subst h
          rw [dictGet_dictSet_same]
          simp

/-- C7: a player leave on the sole remaining player deletes the game
entirely; a player leave on one of two players while the game is `PLAYING`
re-stores it as `FINISHED` (still present, never deleted); a spectator leave
only removes the client from its game's spectator set — that set loses
exactly the client, every other game's set is untouched, and so are all
game records (hence every status), the player map and the legacy map; only
`client_game_map` additionally drops the client. -/
theorem C7_leave_game (L : GameLobby) (cid gid : String) (rec : GameRec) :
    (dictGet L.player_game_map cid = some gid →
      dictGet L.games gid = some rec →
      rec.players = [cid] →
      leave_game L cid =
        some { L with
          games := dictDel L.games gid
          player_game_map := dictDel L.player_game_map cid }) ∧
    (dictGet L.player_game_map cid = some gid →
      dictGet L.games gid = some rec →
      cid ∈ rec.players →
      rec.players.length = 2 →
      rec.state = Status.playing →
      leave_game L cid =
        some { L with
          games := dictSet L.games gid
            ⟨Status.finished, rec.players.erase cid, rec.spectators⟩
          player_game_map := dictDel L.player_game_map cid } ∧
      dictGet (dictSet L.games gid
          ⟨Status.finished, rec.players.erase cid, rec.spectators⟩) gid =
        some ⟨Status.finished, rec.players.erase cid, rec.spectators⟩) ∧
    (dictGet L.player_game_map cid = none →
      dictGet L.client_game_map cid = some gid →
      ∃ L', leave_game L cid = some L' ∧
        L'.games = L.games ∧
        L'.player_game_map = L.player_game_map ∧
        L'.spectator_game_map = L.spectator_game_map ∧
        L'.client_game_map = dictDel L.client_game_map cid ∧
        (∀ ss, dictGet L.spectators gid = some ss →
          dictGet L'.spectators gid = some (ss.erase cid)) ∧
        (∀ g, g ≠ gid → dictGet L'.spectators g = dictGet L.spectators g) ∧
        (dictGet L.spectators gid = none → L'.spectators = L.spectators)) := by
  refine ⟨?_, ?_, ?_⟩
  · intro hmap hg hsole
    unfold leave_game
    rw [hmap]
    dsimp only
    rw [hg]
    dsimp only
    rw [if_pos (by rw [hsole]; exact List.mem_singleton.mpr rfl)]
    rw [hsole]
    simp
  · intro hmap hg hmem hlen hstate
    unfold leave_game
    rw [hmap]
    dsimp only
    rw [hg]
    dsimp only
    rw [if_pos hmem]
    have herase : (rec.players.erase cid).length = 1 := by
      rw [List.length_erase_of_mem hmem, hlen]
    rw [if_neg (by intro hnil; rw [hnil] at herase; cases herase)]
    rw [if_pos ⟨herase, hstate⟩]
    exact ⟨rfl, dictGet_dictSet_same _ _ _⟩
  · intro h1 h2
    unfold leave_game
    rw [h1]
    dsimp only
    rw [h2]
    refine ⟨_, rfl, rfl, rfl, rfl, rfl, ?_, ?_, ?_⟩
    · intro ss hss
      dsimp only
      rw [hss]
      dsimp only
      by_cases hin : cid ∈ ss
      · rw [if_pos hin]
        exact dictGet_dictSet_same _ _ _
      · rw [if_neg hin, hss, List.erase_of_not_mem hin]
    · intro g hg
      dsimp only
      cases hss : dictGet L.spectators gid with
      | none => rfl
      | some ss =>
        dsimp only
        by_cases hin : cid ∈ ss
        · rw [if_pos hin]
          exact dictGet_dictSet_other _ _ _ _ hg
        · rw [if_neg hin]
    · intro hnone
      dsimp only
      rw [hnone]

/-- A lobby where `a` and `b` play game `g0`. -/
def L7 : GameLobby := (join_game (create_game GameLobby.init "g0" "a") "g0" "b").2

/-- Witness for C6: `b` joins the waiting game created by `a`; the game ends
up `PLAYING` with players `[a, b]`. -/
theorem C6_witness :
    dictGet (join_game (create_game GameLobby.init "g0" "a") "g0" "b").2.games "g0" =
      some ⟨Status.playing, ["a", "b"], []⟩ :=
  (C6_join_game (create_game GameLobby.init "g0" "a") "g0" "b"
      (by
        intro rec hrec
        have h : dictGet (create_game GameLobby.init "g0" "a").games "g0" =
            some ⟨Status.waiting, ["a"], []⟩ := by decide
        rw [h] at hrec
        injection hrec with h'
        rw [← h']
        decide)).2.2
    ⟨Status.waiting, ["a"], []⟩ (by decide) (by decide)

/-- Witness for C7: `a` leaves the two-player `PLAYING` game of `L7`; it
becomes `FINISHED` with `b` remaining, and is still present. -/
theorem C7_witness :
    leave_game L7 "a" =
      some { L7 with
        games := dictSet L7.games "g0" ⟨Status.finished, ["b"], []⟩
        player_game_map := dictDel L7.player_game_map "a" } ∧
    dictGet (dictSet L7.games "g0" ⟨Status.finished, ["b"], []⟩) "g0" =
      some ⟨Status.finished, ["b"], []⟩ :=
  (C7_leave_game L7 "a" "g0" ⟨Status.playing, ["a", "b"], []⟩).2.1 (by decide) (by decide)
    (by decide) (by decide) (by decide)

/-!
## C8: the exclusivity invariant over operation sequences
-/

theorem dictDel_sublist {β : Type} (l : List (String × β)) (k : String) :
    List.Sublist (dictDel l k) l := by
  induction l with
  | nil => exact List.Sublist.refl _
  | cons a t ih =>
    obtain ⟨k1, v1⟩ := a
    by_cases hk : k1 = k
    · simp only [dictDel, if_pos hk]
      exact List.sublist_cons_self _ _
    · simp only [dictDel, if_neg hk]
      exact List.cons_sublist_cons.mpr ih

/-- A dict update where the new value satisfies the counted predicate only if
the replaced one did (or makes it false if the key is fresh) does not
increase the count. -/
theorem countP_dictSet_le_of_imp {β : Type} (p : String × β → Bool)
    (l : List (String × β)) (k : String) (v : β) :
    (∀ w, dictGet l k = some w → p (k, v) = true → p (k, w) = true) →
    (dictGet l k = none → p (k, v) = false) →
    (dictSet l k v).countP p ≤ l.countP p := by
  induction l with
  | nil =>
    intro _ hnone
    simp only [dictSet, List.countP_nil, List.countP_singleton, hnone rfl]
    simp
  | cons a t ih =>
    intro himp hnone
    obtain ⟨k1, v1⟩ := a
    by_cases hk : k1 = k
    · subst hk
      have hset : dictSet ((k1, v1) :: t) k1 v = (k1, v) :: t := by
        simp [dictSet]
      have hget : dictGet ((k1, v1) :: t) k1 = some v1 := by
        simp [dictGet]
      rw [hset, List.countP_cons, List.countP_cons]
      by_cases hp : p (k1, v) = true
      · rw [if_pos hp, if_pos (himp v1 hget hp)]
      · rw [if_neg hp]
        split <;> omega
    · have hset : dictSet ((k1, v1) :: t) k v = (k1, v1) :: dictSet t k v := by
        simp [dictSet, hk]
      have hget : dictGet ((k1, v1) :: t) k = dictGet t k := by
        simp [dictGet, hk]
      rw [hget] at himp hnone
      rw [hset, List.countP_cons, List.countP_cons]
      have := ih himp hnone
      omega

/-- A dict update into a list none of whose entries satisfies the counted
predicate leaves at most the new entry satisfying it. -/
theorem countP_dictSet_le_one {β : Type} (p : String × β → Bool)
    (l : List (String × β)) (k : String) (v : β) :
    (∀ e ∈ l, p e = false) → (dictSet l k v).countP p ≤ 1 := by
  induction l with
  | nil =>
    intro _
    simp only [dictSet, List.countP_singleton]
    split <;> omega
  | cons a t ih =>
    intro hall
    obtain ⟨k1, v1⟩ := a
    by_cases hk : k1 = k
    · subst hk
      have hset : dictSet ((k1, v1) :: t) k1 v = (k1, v) :: t := by
        simp [dictSet]
      rw [hset, List.countP_cons]
      have ht : t.countP p = 0 := by
        rw [List.countP_eq_zero]
        intro e he
        simp [hall e (List.mem_cons_of_mem _ he)]
      rw [ht]
      split <;> omega
    · have hset : dictSet ((k1, v1) :: t) k v = (k1, v1) :: dictSet t k v := by
        simp [dictSet, hk]
      rw [hset, List.countP_cons]
      have h1 : p (k1, v1) = false := hall _ (List.mem_cons_self _ _)
      have := ih (fun e he => hall e (List.mem_cons_of_mem _ he))
      rw [h1]
      simp
      omega

/-- Number of lobby games listing `c` as a player. -/
def playerCount (L : GameLobby) (c : String) : ℕ :=
  L.games.countP (fun e => decide (c ∈ e.2.players))

/-- Number of lobby-level spectator sets containing `c`. -/
def spectatorCount (L : GameLobby) (c : String) : ℕ :=
  L.spectators.countP (fun e => decide (c ∈ e.2))

/-- The spec's lobby invariant: every client is a player in at most one game
and a spectator of at most one game. -/
def Exclusive (L : GameLobby) : Prop :=
  ∀ c, playerCount L c ≤ 1 ∧ spectatorCount L c ≤ 1

/-- The five lobby operations of the claim. -/
inductive LobbyOp
  | createOp (pid : String)
  | joinOp (gid pid : String)
  | joinRandomOp (pid : String)
  | spectateOp (gid cid : String)
  | leaveOp (cid : String)

/-- Fresh game ids drawn from a counter (standing in for `uuid4`). -/
def genId (n : ℕ) : String := "g" ++ toString n

/-- Apply one lobby operation; an exception inside `leave_game` propagates
before any mutation, leaving the lobby as it was. -/
def applyOp : GameLobby × ℕ → LobbyOp → GameLobby × ℕ
  | (L, n), .createOp pid => (create_game L (genId n) pid, n + 1)
  | (L, n), .joinOp gid pid => ((join_game L gid pid).2, n)
  | (L, n), .joinRandomOp pid => ((join_random_game L (genId n) pid).2, n + 1)
  | (L, n), .spectateOp gid cid => ((spectate_game L gid cid).2, n)
  | (L, n), .leaveOp cid => ((leave_game L cid).getD L, n)

/-- Guard under which the invariant is preserved: a client creates or joins
only while not listed as a player anywhere, and spectates only while not in
any spectator set. -/
def guardedOp (L : GameLobby) : LobbyOp → Bool
  | .createOp pid => L.games.all (fun e => !(e.2.players.contains pid))
  | .joinOp _ pid => L.games.all (fun e => !(e.2.players.contains pid))
  | .joinRandomOp pid => L.games.all (fun e => !(e.2.players.contains pid))
  | .spectateOp _ cid => L.spectators.all (fun e => !(e.2.contains cid))
  | .leaveOp _ => true

/-- Every operation of the sequence satisfies its guard in the state where
it runs. -/
def guardedRun : GameLobby × ℕ → List LobbyOp → Bool
  | _, [] => true
  | s, op :: rest => guardedOp s.1 op && guardedRun (applyOp s op) rest

/-- Run a sequence of lobby operations. -/
def runOps : GameLobby × ℕ → List LobbyOp → GameLobby × ℕ
  | s, [] => s
  | s, op :: rest => runOps (applyOp s op) rest

/-- Case analysis on `join_game`: failure returns the lobby unchanged;
success appends the player to a waiting, non-full game. -/
theorem join_game_spec (L : GameLobby) (gid pid : String) :
    join_game L gid pid = (false, L) ∨
    ∃ rec, dictGet L.games gid = some rec ∧ rec.state = Status.waiting ∧
      rec.players.length < 2 ∧
      join_game L gid pid =
        (true,
          { L with
            games := dictSet L.games gid
              ⟨if (rec.players ++ [pid]).length = 2 then Status.playing else rec.state,
               rec.players ++ [pid], rec.spectators⟩
            player_game_map := dictSet L.player_game_map pid gid }) := by
  unfold join_game
  cases hg : dictGet L.games gid with
  | none => exact Or.inl rfl
  | some rec =>
    dsimp only
    by_cases hw : rec.state ≠ Status.waiting
    · rw [if_pos hw]
      exact Or.inl rfl
    · rw [if_neg hw]
      push_neg at hw
      by_cases h2 : rec.players.length ≥ 2
      · rw [if_pos h2]
        exact Or.inl rfl
      · rw [if_neg h2]
        push_neg at h2
        exact Or.inr ⟨rec, rfl, hw, h2, rfl⟩

/-- The scan of `join_random_game` only ever commits a `join_game` on the
original lobby: on a hit, the state returned is that `join_game`'s. -/
theorem join_random_loop_spec (L : GameLobby) (pid : String)
    (gl : List (String × GameRec)) (gid : String) (L' : GameLobby)
    (h : join_random_loop L pid gl = some (gid, L')) :
    L' = (join_game L gid pid).2 := by
  induction gl with
  | nil => cases h
  | cons a rest ih =>
    obtain ⟨g, rec⟩ := a
    unfold join_random_loop at h
    by_cases hcond : rec.state = Status.waiting ∧ rec.players.length < 2
    · rw [if_pos hcond] at h
      dsimp only at h
      by_cases hok : (join_game L g pid).1
      · rw [if_pos hok] at h
        injection h with h'
        injection h' with h1 h2
        subst h1
        exact h2.symm
      · rw [if_neg hok] at h
        rcases join_game_spec L g pid with hfail | ⟨_, _, _, _, hsucc⟩
        · rw [hfail] at h
          exact ih h
        · rw [hsucc] at hok
          simp at hok
    · rw [if_neg hcond] at h
      exact ih h

/-- `create_game` preserves the exclusivity invariant when the creator is
not currently a player anywhere (even against id collisions). -/
theorem exclusive_create (L : GameLobby) (gid pid : String)
    (hL : Exclusive L) (hg : ∀ e ∈ L.games, pid ∉ e.2.players) :
    Exclusive (create_game L gid pid) := by
  intro c
  refine ⟨?_, (hL c).2⟩
  by_cases hc : c = pid
  · subst hc
    exact countP_dictSet_le_one _ _ _ _ (fun e he => by simpa using hg e he)
  · refine le_trans (countP_dictSet_le_of_imp _ _ _ _ ?_ ?_) (hL c).1
    · intro w hw hval
      simp [hc] at hval
    · intro _
      simp [hc]

/-- `join_game` preserves the exclusivity invariant when the joiner is not
currently a player anywhere. -/
theorem exclusive_join (L : GameLobby) (gid pid : String)
    (hL : Exclusive L) (hg : ∀ e ∈ L.games, pid ∉ e.2.players) :
    Exclusive (join_game L gid pid).2 := by
  rcases join_game_spec L gid pid with hfail | ⟨rec, hget, _, _, hsucc⟩
  · rw [hfail]
    exact hL
  · rw [hsucc]
    intro c
    refine ⟨?_, (hL c).2⟩
    by_cases hc : c = pid
    · subst hc
      exact countP_dictSet_le_one _ _ _ _ (fun e he => by simpa using hg e he)
    · refine le_trans (countP_dictSet_le_of_imp _ _ _ _ ?_ ?_) (hL c).1
      · intro w hw hval
        rw [hget] at hw
        injection hw with hw
        subst hw
        simp only [decide_eq_true_eq] at hval ⊢
        rcases List.mem_append.mp hval with h | h
        · exact h
        · exact absurd (List.mem_singleton.mp h) hc
      · intro hnone
        rw [hget] at hnone
        cases hnone

/-- `spectate_game` preserves the exclusivity invariant when the client is
not currently in any spectator set. -/
theorem exclusive_spectate (L : GameLobby) (gid cid : String)
    (hL : Exclusive L) (hg : ∀ e ∈ L.spectators, cid ∉ e.2) :
    Exclusive (spectate_game L gid cid).2 := by
  unfold spectate_game
  by_cases hk : (dictGet L.games gid).isSome
  · rw [if_pos hk]
    dsimp only
    intro c
    refine ⟨(hL c).1, ?_⟩
    by_cases hc : c = cid
    · subst hc
      exact countP_dictSet_le_one _ _ _ _ (fun e he => by simpa using hg e he)
    · refine le_trans (countP_dictSet_le_of_imp _ _ _ _ ?_ ?_) (hL c).2
      · intro w hw hval
        rw [hw] at hval
        simp only [decide_eq_true_eq, Option.getD_some] at hval ⊢
        split at hval
        · exact hval
        · rcases List.mem_append.mp hval with h | h
          · exact h
          · exact absurd (List.mem_singleton.mp h) hc
      · intro hnone
        rw [hnone]
        simp [hc]
  · rw [if_neg hk]
    exact hL

/-- Shrinking one game's player list (the player-leave update) preserves the
exclusivity invariant whatever status and player-map update accompany it. -/
theorem exclusive_set_erase (L : GameLobby) (gid : String) (rec : GameRec)
    (st : Status) (cid : String) (hget : dictGet L.games gid = some rec)
    (hL : Exclusive L) (pm : List (String × String)) :
    Exclusive { L with
      games := dictSet L.games gid ⟨st, rec.players.erase cid, rec.spectators⟩
      player_game_map := pm } := by
  intro c
  refine ⟨?_, (hL c).2⟩
  refine le_trans (countP_dictSet_le_of_imp _ _ _ _ ?_ ?_) (hL c).1
  · intro w hw hval
    rw [hget] at hw
    injection hw with hw
    subst hw
    simp only [decide_eq_true_eq] at hval ⊢
    exact List.mem_of_mem_erase hval
  · intro hnone
    rw [hget] at hnone
    cases hnone

/-- `leave_game` (with an exception leaving the lobby untouched) always
preserves the exclusivity invariant. -/
theorem exclusive_leave (L : GameLobby) (cid : String) (hL : Exclusive L) :
    Exclusive ((leave_game L cid).getD L) := by
  unfold leave_game
  cases hpm : dictGet L.player_game_map cid with
  | some gid =>
    dsimp only
    cases hgm : dictGet L.games gid with
    | none => exact hL
    | some rec =>
      dsimp only
      by_cases hmem : cid ∈ rec.players
      · rw [if_pos hmem]
        by_cases hnil : rec.players.erase cid = []
        · rw [if_pos hnil]
          intro c
          refine ⟨?_, (hL c).2⟩
          exact le_trans (List.Sublist.countP_le _ (dictDel_sublist _ _)) (hL c).1
        · rw [if_neg hnil]
          by_cases h1 : (rec.players.erase cid).length = 1 ∧ rec.state = Status.playing
          · rw [if_pos h1]
            exact exclusive_set_erase L gid rec Status.finished cid hgm hL _
          · rw [if_neg h1]
            exact exclusive_set_erase L gid rec rec.state cid hgm hL _
      · rw [if_neg hmem]
        exact hL
  | none =>
    dsimp only
    cases hcm : dictGet L.client_game_map cid with
    | some gid =>
      dsimp only
      cases hs : dictGet L.spectators gid with
      | none =>
        dsimp only
        exact fun c => ⟨(hL c).1, (hL c).2⟩
      | some ss =>
        dsimp only
        by_cases hin : cid ∈ ss
        · rw [if_pos hin]
          intro c
          refine ⟨(hL c).1, ?_⟩
          refine le_trans (countP_dictSet_le_of_imp _ _ _ _ ?_ ?_) (hL c).2
          · intro w hw hval
            rw [hs] at hw
            injection hw with hw
            subst hw
            simp only [decide_eq_true_eq] at hval ⊢
            exact List.mem_of_mem_erase hval
          · intro hnone
            rw [hs] at hnone
            cases hnone
        · rw [if_neg hin]
          exact fun c => ⟨(hL c).1, (hL c).2⟩
    | none =>
      dsimp only
      cases hsm : dictGet L.spectator_game_map cid with
      | some gid =>
        dsimp only
        cases hgm : dictGet L.games gid with
        | none => exact hL
        | some rec =>
          dsimp only
          by_cases hin : cid ∈ rec.spectators
          · rw [if_pos hin]
            intro c
            refine ⟨?_, (hL c).2⟩
            refine le_trans (countP_dictSet_le_of_imp _ _ _ _ ?_ ?_) (hL c).1
            · intro w hw hval
              rw [hgm] at hw
              injection hw with hw
              subst hw
              exact hval
            · intro hnone
              rw [hgm] at hnone
              cases hnone
          · rw [if_neg hin]
            exact hL
      | none => exact hL

/-- Each guarded operation preserves the exclusivity invariant. -/
theorem exclusive_applyOp (s : GameLobby × ℕ) (op : LobbyOp)
    (hL : Exclusive s.1) (hg : guardedOp s.1 op = true) :
    Exclusive (applyOp s op).1 := by
  obtain ⟨L, n⟩ := s
  cases op with
  | createOp pid =>
    simp only [guardedOp] at hg
    exact exclusive_create L (genId n) pid hL
      (fun e he => by simpa using List.all_eq_true.mp hg e he)
  | joinOp gid pid =>
    simp only [guardedOp] at hg
    exact exclusive_join L gid pid hL
      (fun e he => by simpa using List.all_eq_true.mp hg e he)
  | joinRandomOp pid =>
    simp only [guardedOp] at hg
    have hg' : ∀ e ∈ L.games, pid ∉ e.2.players :=
      fun e he => by simpa using List.all_eq_true.mp hg e he
    dsimp only [applyOp]
    unfold join_random_game
    cases hloop : join_random_loop L pid L.games with
    | none =>
      dsimp only
      exact exclusive_create L (genId n) pid hL hg'
    | some pr =>
      obtain ⟨gid, L'⟩ := pr
      dsimp only
      rw [join_random_loop_spec L pid L.games gid L' hloop]
      exact exclusive_join L gid pid hL hg'
  | spectateOp gid cid =>
    simp only [guardedOp] at hg
    exact exclusive_spectate L gid cid hL
      (fun e he => by simpa using List.all_eq_true.mp hg e he)
  | leaveOp cid => exact exclusive_leave L cid hL

/-- C8 counterexample: the sequence `createGame("p"); createGame("p")` leaves
`"p"` listed as a player of both created games — neither `create_game` nor
`join_game` removes a client from a previous game, so the exclusivity
invariant fails. -/
theorem C8_counterexample :
    dictGet (runOps (GameLobby.init, 0)
        [LobbyOp.createOp "p", LobbyOp.createOp "p"]).1.games "g0" =
      some ⟨Status.waiting, ["p"], []⟩ ∧
    dictGet (runOps (GameLobby.init, 0)
        [LobbyOp.createOp "p", LobbyOp.createOp "p"]).1.games "g1" =
      some ⟨Status.waiting, ["p"], []⟩ ∧
    playerCount (runOps (GameLobby.init, 0)
        [LobbyOp.createOp "p", LobbyOp.createOp "p"]).1 "p" = 2 :=
  ⟨by decide, by decide, by decide⟩

/-- C8 (amended): the exclusivity invariant holds after every sequence of
lobby operations in which each `createGame`/`joinGame`/`joinRandomGame` is
issued by a client not currently listed as a player of any game and each
`spectateGame` by a client not currently in any spectator set
(`guardedRun`); without that guard a seated player who creates or joins
another game remains listed in the first game's player list. -/
theorem C8_guarded_exclusivity (ops : List LobbyOp)
    (h : guardedRun (GameLobby.init, 0) ops = true) :
    Exclusive (runOps (GameLobby.init, 0) ops).1 := by
  have gen : ∀ (l : List LobbyOp) (s : GameLobby × ℕ), Exclusive s.1 →
      guardedRun s l = true → Exclusive (runOps s l).1 := by
    intro l
    induction l with
    | nil =>
      intro s h1 _
      exact h1
    | cons op rest ih =>
      intro s h1 h2
      simp only [guardedRun, Bool.and_eq_true] at h2
      exact ih (applyOp s op) (exclusive_applyOp s op h1 h2.1) h2.2
  refine gen ops (GameLobby.init, 0) ?_ h
  intro c
  exact ⟨Nat.zero_le 1, Nat.zero_le 1⟩

/-- Witness for the amended C8: a guarded five-operation sequence — `a`
creates, `b` joins, `s1` spectates, `a` leaves, `a` creates again — keeps
every client exclusive. -/
theorem C8_witness :
    playerCount (runOps (GameLobby.init, 0)
      [LobbyOp.createOp "a", LobbyOp.joinOp "g0" "b", LobbyOp.spectateOp "g0" "s1",
       LobbyOp.leaveOp "a", LobbyOp.createOp "a"]).1 "a" ≤ 1 ∧
    spectatorCount (runOps (GameLobby.init, 0)
      [LobbyOp.createOp "a", LobbyOp.joinOp "g0" "b", LobbyOp.spectateOp "g0" "s1",
       LobbyOp.leaveOp "a", LobbyOp.createOp "a"]).1 "a" ≤ 1 :=
  C8_guarded_exclusivity
    [LobbyOp.createOp "a", LobbyOp.joinOp "g0" "b", LobbyOp.spectateOp "g0" "s1",
     LobbyOp.leaveOp "a", LobbyOp.createOp "a"] (by decide) "a"

/-- C9: decoding the encoded form of any message — any type tag, any data
value, with or without an origin client id — reproduces the original type
and data (the `client_id` field is dropped when falsy, but the claim is
only about `msg_type` and `data`). -/
theorem C9_round_trip (m : Message) :
    ∃ m', Message.from_json (Message.to_json m) = some m' ∧
      m'.msg_type = m.msg_type ∧ m'.data = m.data := by
  unfold Message.to_json Message.from_json
  cases hc : m.client_id with
  | none =>
    refine ⟨⟨m.msg_type, m.data, none⟩, ?_, rfl, rfl⟩
    simp [dictGet]
  | some c =>
    dsimp only
    by_cases ht : c.truthy
    · rw [if_pos ht]
      refine ⟨⟨m.msg_type, m.data, some c⟩, ?_, rfl, rfl⟩
      simp [dictGet]
    · rw [if_neg ht]
      refine ⟨⟨m.msg_type, m.data, none⟩, ?_, rfl, rfl⟩
      simp [dictGet]

end ChessServer
